import Mathlib

/-!
Verification of the Complementry completion-orchestration core.

The definitions below are a shallow embedding of the TypeScript sources:
the promise-based variant (class CompletionRequestManager, class
PromptBuilder, class LLMService, class DocumentSettingsManager, class
ComplementryCompletionProvider and the complementry.triggerCompletion
command handler) and the stored-result variant (class
CompletionTriggerManager and its provider, in extension.ts).

JavaScript promises are modelled by numeric future identifiers: creating
a promise allocates a fresh identifier, and settling it is recorded as an
event in a trace.  File-system access is modelled as a function from
paths to `Except Unit String` (an error models a thrown exception).
Strings are manipulated through an explicit replace-all function with the
left-to-right, non-overlapping, global semantics of JavaScript
`String.prototype.replace` with a global literal pattern.
-/

/-- A cursor position: vscode.Position (line, character). -/
structure Position where
  line : Nat
  col : Nat
deriving DecidableEq, Repr

/-- vscode.InlineCompletionItem as constructed by the trigger handler:
an insert text plus an empty range anchored at the trigger position. -/
structure InlineCompletionItem where
  insertText : String
  rangeStart : Position
  rangeEnd : Position
deriving DecidableEq, Repr

/-- The pending-request record of class CompletionRequestManager:
`{ documentUri, position, promise, resolve }`.  The promise/resolver pair
is modelled by a future identifier. -/
structure PendingReq where
  documentUri : String
  pos : Position
  futureId : Nat
deriving DecidableEq, Repr

/-- State of a CompletionRequestManager instance: the single nullable
`pendingRequest` field, plus a counter for allocating fresh future
identifiers (modelling `new Promise`). -/
structure CoordState where
  pendingRequest : Option PendingReq
  nextId : Nat
deriving DecidableEq, Repr

/-- Promise lifecycle events: a future is created, or settled with a
list of items. -/
inductive CoordEvent where
  | created (id : Nat)
  | settled (id : Nat) (items : List InlineCompletionItem)
deriving DecidableEq, Repr

/-- The fresh state of a newly constructed CompletionRequestManager. -/
def initCoordState : CoordState := { pendingRequest := none, nextId := 0 }

namespace CompletionRequestManager

/-- CompletionRequestManager.createPendingRequest: if a request is
already pending, its promise is resolved with `[]` (cancellation) first;
then a fresh promise is created and stored together with the document
uri and position.  Returns the new state and the promise-lifecycle
events in the order the code performs them. -/
def createPendingRequest (s : CoordState) (documentUri : String) (pos : Position) :
    CoordState × List CoordEvent :=
  let cancelEvents : List CoordEvent :=
    match s.pendingRequest with
    | some pr => [CoordEvent.settled pr.futureId []]
    | none => []
  let pr : PendingReq := { documentUri := documentUri, pos := pos, futureId := s.nextId }
  ({ pendingRequest := some pr, nextId := s.nextId + 1 },
   cancelEvents ++ [CoordEvent.created s.nextId])

/-- CompletionRequestManager.resolveRequest: settles the pending
promise with the given items and clears the slot; logged no-op when no
request is pending. -/
def resolveRequest (s : CoordState) (items : List InlineCompletionItem) :
    CoordState × List CoordEvent :=
  match s.pendingRequest with
  | some pr => ({ s with pendingRequest := none }, [CoordEvent.settled pr.futureId items])
  | none => (s, [])

/-- CompletionRequestManager.cancelRequest: settles the pending promise
with `[]` and clears the slot; no-op when no request is pending. -/
def cancelRequest (s : CoordState) : CoordState × List CoordEvent :=
  match s.pendingRequest with
  | some pr => ({ s with pendingRequest := none }, [CoordEvent.settled pr.futureId []])
  | none => (s, [])

/-- CompletionRequestManager.getPendingPromise: returns the pending
promise when the pending request's document uri equals the argument,
`null` otherwise.  The method only reads fields, so the state component
of the result is the input state unchanged. -/
def getPendingPromise (s : CoordState) (documentUri : String) :
    Option Nat × CoordState :=
  match s.pendingRequest with
  | some pr =>
    if pr.documentUri = documentUri then (some pr.futureId, s) else (none, s)
  | none => (none, s)

/-- CompletionRequestManager.hasPendingRequest. -/
def hasPendingRequest (s : CoordState) : Bool :=
  s.pendingRequest.isSome

end CompletionRequestManager

/-- The three operations a client can perform on the coordinator. -/
inductive CoordOp where
  | begin (documentUri : String) (pos : Position)
  | resolve (items : List InlineCompletionItem)
  | cancel
deriving DecidableEq, Repr

/-- One coordinator operation, returning the new state and the
promise-lifecycle events it produced. -/
def stepCoord (s : CoordState) : CoordOp → CoordState × List CoordEvent
  | CoordOp.begin uri pos => CompletionRequestManager.createPendingRequest s uri pos
  | CoordOp.resolve items => CompletionRequestManager.resolveRequest s items
  | CoordOp.cancel => CompletionRequestManager.cancelRequest s

/-- Run a sequence of coordinator operations from a state, accumulating
the event trace. -/
def runCoordFrom (s : CoordState) (tr : List CoordEvent) :
    List CoordOp → CoordState × List CoordEvent
  | [] => (s, tr)
  | op :: ops =>
    let r := stepCoord s op
    runCoordFrom r.1 (tr ++ r.2) ops

/-- Run a sequence of coordinator operations from the initial state. -/
def runCoord (ops : List CoordOp) : CoordState × List CoordEvent :=
  runCoordFrom initCoordState [] ops

/-- Identifiers of futures created in a trace, in creation order. -/
def createdIds (tr : List CoordEvent) : List Nat :=
  tr.filterMap fun e =>
    match e with
    | CoordEvent.created i => some i
    | CoordEvent.settled _ _ => none

/-- How many times a given future is settled in a trace. -/
def settleCount (tr : List CoordEvent) (id : Nat) : Nat :=
  tr.countP fun e =>
    match e with
    | CoordEvent.settled i _ => i == id
    | CoordEvent.created _ => false

/-- Futures created but not yet settled in a trace: the pending ones. -/
def unsettledIds (tr : List CoordEvent) : List Nat :=
  (createdIds tr).filter fun i => settleCount tr i == 0

/-- The future identifiers currently held pending by the coordinator
state (a singleton or empty list). -/
def pendingIds (s : CoordState) : List Nat :=
  match s.pendingRequest with
  | some pr => [pr.futureId]
  | none => []

/-- State of a CompletionTriggerManager instance (the stored-result
variant in extension.ts): a pending-completion record, the stored
completion result with its owning document uri, the last completion
text kept for fallback insertion, and the read counter used by the
"serve the result for a few calls" heuristic. -/
structure TriggerState where
  pendingCompletion : Option (String × Position)
  completionResult : Option (List InlineCompletionItem)
  completionDocUri : Option String
  lastCompletionText : Option String
  resultCallCount : Nat
deriving DecidableEq, Repr

namespace CompletionTriggerManager

/-- CompletionTriggerManager.setCompletionResult: stores the items and
their owning document, resets the read counter, and remembers the first
item's insert text (when non-empty, matching JavaScript truthiness) for
fallback insertion. -/
def setCompletionResult (st : TriggerState) (documentUri : String)
    (items : List InlineCompletionItem) : TriggerState :=
  let st1 := { st with
    completionResult := some items
    completionDocUri := some documentUri
    resultCallCount := 0 }
  match items with
  | item :: _ =>
    if item.insertText = "" then st1
    else { st1 with lastCompletionText := some item.insertText }
  | [] => st1

/-- CompletionTriggerManager.getCompletionResult: if the stored result's
document matches, increments the read counter; while the counter stays
at three or below it returns the stored result and keeps it, and once
the counter exceeds three it returns the result one last time while
clearing the stored result and its document uri. -/
def getCompletionResult (st : TriggerState) (documentUri : String) :
    Option (List InlineCompletionItem) × TriggerState :=
  match st.completionDocUri, st.completionResult with
  | some uri, some result =>
    if uri = documentUri then
      let count := st.resultCallCount + 1
      if count > 3 then
        (some result, { st with
          completionResult := none
          completionDocUri := none
          resultCallCount := count })
      else
        (some result, { st with resultCallCount := count })
    else (none, st)
  | some _, none => (none, st)
  | none, _ => (none, st)

/-- CompletionTriggerManager.clearResult. -/
def clearResult (st : TriggerState) : TriggerState :=
  { st with completionResult := none, completionDocUri := none }

end CompletionTriggerManager

namespace ComplementryCompletionProvider

/-- ComplementryCompletionProvider.provideInlineCompletionItems
(promise-based variant): declines for non-markdown documents, otherwise
hands back the coordinator's pending promise for this document (or
null).  The method performs no backend call and does not change the
request manager's state. -/
def provideInlineCompletionItems (s : CoordState)
    (languageId documentUri : String) : Option Nat × CoordState :=
  if languageId ≠ "markdown" then (none, s)
  else CompletionRequestManager.getPendingPromise s documentUri

end ComplementryCompletionProvider

namespace StoredResultProvider

/-- ComplementryCompletionProvider.provideInlineCompletionItems
(stored-result variant in extension.ts): declines for non-markdown
documents, otherwise returns the precomputed completion result (or
null). -/
def provideInlineCompletionItems (st : TriggerState)
    (languageId documentUri : String) :
    Option (List InlineCompletionItem) × TriggerState :=
  if languageId ≠ "markdown" then (none, st)
  else CompletionTriggerManager.getCompletionResult st documentUri

end StoredResultProvider

/-- Outcome of the underlying model-provider call: generateText either
produces a completion text or throws a transport/provider error. -/
inductive BackendOutcome where
  | success (text : String)
  | failure (message : String)
deriving DecidableEq, Repr

namespace LLMService

/-- The generateText call awaited inside LLMService.getCompletion: an
Except error models a thrown exception. -/
def generateTextCall : BackendOutcome → Except String String
  | BackendOutcome.success text => Except.ok text
  | BackendOutcome.failure message => Except.error message

/-- LLMService.getCompletion: wraps the provider call in try/catch.  A
thrown error is caught, reported through a diagnostic status, and
returned as null; an empty response text is also returned as null
(result.text || null).  The Except layer of the result type records
whether an exception escapes to the caller: it never does. -/
def getCompletion (o : BackendOutcome) : Except String (Option String) :=
  match generateTextCall o with
  | Except.ok text => Except.ok (if text = "" then none else some text)
  | Except.error _ => Except.ok none

/-- What the trigger handler observes after awaiting getCompletion:
just the optional completion text (the call never throws). -/
def awaitCompletion (o : BackendOutcome) : Option String :=
  match getCompletion o with
  | Except.ok v => v
  | Except.error _ => none

end LLMService

/-- The suggestion items the trigger handler builds from the awaited
completion: one item anchored at the trigger position, or none. -/
def completionItems (pos : Position) : Option String → List InlineCompletionItem
  | some text => [{ insertText := text, rangeStart := pos, rangeEnd := pos }]
  | none => []

/-- Steps of the complementry.triggerCompletion command handler
(promise-based variant), in execution order, with the data observable
at each step: the future created for the pending request, what the
re-entered provider sees when the host is asked to re-invoke it, the
awaited backend result, and the promise events of the final resolve. -/
inductive HandlerEvent where
  | createdPending (id : Nat)
  | reinvokeIssued (providerView : Option Nat)
  | backendAwaited (result : Option String)
  | resolvedPending (events : List CoordEvent)
deriving DecidableEq, Repr

/-- The complementry.triggerCompletion command handler (promise-based
variant): declines unless a markdown editor is active; otherwise it
(1) creates the pending request, (2) starts the backend call and asks
the host to re-invoke the provider without awaiting, recording what the
re-entered provider observes, (3) awaits the backend result, and
(4) resolves the pending request with one item (or with no items when
the backend reported null).  Returns the final coordinator state, the
promise-event trace, and the handler-step trace in execution order. -/
def triggerCompletion (s : CoordState) (languageId documentUri : String)
    (pos : Position) (o : BackendOutcome) :
    CoordState × List CoordEvent × List HandlerEvent :=
  if languageId ≠ "markdown" then (s, [], [])
  else
    let step1 := CompletionRequestManager.createPendingRequest s documentUri pos
    let providerView :=
      (CompletionRequestManager.getPendingPromise step1.1 documentUri).1
    let completion := LLMService.awaitCompletion o
    let items := completionItems pos completion
    let step4 := CompletionRequestManager.resolveRequest step1.1 items
    (step4.1, step1.2 ++ step4.2,
     [HandlerEvent.createdPending s.nextId,
      HandlerEvent.reinvokeIssued providerView,
      HandlerEvent.backendAwaited completion,
      HandlerEvent.resolvedPending step4.2])

/-- ECMAScript GetSubstitution for a string replacement with a literal
pattern (no capture groups): scanning the replacement text, a dollar
followed by a dollar emits one dollar, dollar-ampersand emits the
matched substring, dollar-backquote emits the portion of the original
subject preceding the match, dollar-quote emits the portion following
it, and any other dollar sequence (including digit and angle forms,
which have no capture groups to refer to) stays literal. -/
def getSubstitution (matched before after : List Char) : List Char → List Char
  | [] => []
  | c :: rest =>
    if c = '$' then
      match rest with
      | [] => [c]
      | d :: rest2 =>
        if d = '$' then '$' :: getSubstitution matched before after rest2
        else if d = '&' then matched ++ getSubstitution matched before after rest2
        else if d = Char.ofNat 96 then
          before ++ getSubstitution matched before after rest2
        else if d = Char.ofNat 39 then
          after ++ getSubstitution matched before after rest2
        else c :: d :: getSubstitution matched before after rest2
    else c :: getSubstitution matched before after rest

/-- Bounded-fuel core of JavaScript String.prototype.replace with a
global literal pattern: scan left to right; where the pattern matches,
emit the GetSubstitution expansion of the replacement (computed from
the match, the original text already scanned, and the original text
following the match) and continue after the matched segment (the
inserted text is not rescanned); elsewhere keep one character.  The
second list argument accumulates the original characters already
scanned; the fuel only serves structural recursion and is irrelevant
once it is at least the length of the subject. -/
def replaceAllFuel (pattern repl : List Char) :
    Nat → List Char → List Char → List Char
  | _, _, [] => []
  | 0, _, s => s
  | fuel + 1, seen, c :: rest =>
    if pattern ≠ [] ∧ pattern.isPrefixOf (c :: rest) then
      getSubstitution pattern seen ((c :: rest).drop pattern.length) repl
        ++ replaceAllFuel pattern repl fuel (seen ++ pattern)
            ((c :: rest).drop pattern.length)
    else
      c :: replaceAllFuel pattern repl fuel (seen ++ [c]) rest

/-- Global replace-all over character lists, the semantics of the
source's template.replace(/pattern/g, repl) for a literal pattern,
dollar escapes in the replacement included. -/
def replaceAll (pattern repl s : List Char) : List Char :=
  replaceAllFuel pattern repl s.length [] s

/-- Auxiliary literal-insertion variant of the scan (the replacement is
inserted verbatim, ignoring dollar escapes).  It agrees with replaceAll
whenever the replacement contains no dollar character and carries most
of the proofs. -/
def replaceAllLitFuel (pattern repl : List Char) : Nat → List Char → List Char
  | _, [] => []
  | 0, s => s
  | fuel + 1, c :: rest =>
    if pattern ≠ [] ∧ pattern.isPrefixOf (c :: rest) then
      repl ++ replaceAllLitFuel pattern repl fuel ((c :: rest).drop pattern.length)
    else
      c :: replaceAllLitFuel pattern repl fuel rest

/-- Literal-insertion replace-all over character lists. -/
def replaceAllLit (pattern repl s : List Char) : List Char :=
  replaceAllLitFuel pattern repl s.length s

/-- Global replace-all over strings. -/
def replaceAllS (s pattern repl : String) : String :=
  String.mk (replaceAll pattern.data repl.data s.data)

/-- Whether a pattern occurs somewhere as a contiguous segment. -/
def containsSub (pattern : List Char) : List Char → Bool
  | [] => pattern.isPrefixOf []
  | c :: rest => pattern.isPrefixOf (c :: rest) || containsSub pattern rest

/-- The five placeholders recognised by buildPrompt. -/
inductive Placeholder where
  | document
  | beforeCursor
  | afterCursor
  | contextFiles
  | cursor
deriving DecidableEq, Repr

/-- The literal token each placeholder stands for in a template. -/
def Placeholder.token : Placeholder → List Char
  | Placeholder.document => ("{document}" : String).data
  | Placeholder.beforeCursor => ("{before_cursor}" : String).data
  | Placeholder.afterCursor => ("{after_cursor}" : String).data
  | Placeholder.contextFiles => ("{context_files}" : String).data
  | Placeholder.cursor => ("{cursor}" : String).data

/-- All five placeholder tokens. -/
def placeholderTokens : List (List Char) :=
  [Placeholder.document.token, Placeholder.beforeCursor.token,
   Placeholder.afterCursor.token, Placeholder.contextFiles.token,
   Placeholder.cursor.token]

/-- A template seen as a sequence of pieces: literal text segments and
placeholder occurrences. -/
inductive TemplatePiece where
  | lit (text : List Char)
  | ph (p : Placeholder)
deriving DecidableEq, Repr

/-- The template string a piece sequence denotes. -/
def renderTemplate : List TemplatePiece → List Char
  | [] => []
  | TemplatePiece.lit L :: rest => L ++ renderTemplate rest
  | TemplatePiece.ph p :: rest => p.token ++ renderTemplate rest

/-- Replace every occurrence of one placeholder by a literal value,
at the piece level. -/
def replacePh (p : Placeholder) (v : List Char) :
    List TemplatePiece → List TemplatePiece
  | [] => []
  | TemplatePiece.lit L :: rest => TemplatePiece.lit L :: replacePh p v rest
  | TemplatePiece.ph q :: rest =>
    (if q = p then TemplatePiece.lit v else TemplatePiece.ph q)
      :: replacePh p v rest

/-- Expand all five placeholders at once, at the piece level: each
placeholder becomes the literal text it is substituted with (the cursor
becomes the fixed sentinel), literal pieces stay. -/
def expandPieces (doc bef aft ctx : List Char) :
    List TemplatePiece → List TemplatePiece
  | [] => []
  | TemplatePiece.lit L :: rest =>
    TemplatePiece.lit L :: expandPieces doc bef aft ctx rest
  | TemplatePiece.ph q :: rest =>
    TemplatePiece.lit
      (match q with
       | Placeholder.document => doc
       | Placeholder.beforeCursor => bef
       | Placeholder.afterCursor => aft
       | Placeholder.contextFiles => ctx
       | Placeholder.cursor => ("[CURSOR HERE]" : String).data)
      :: expandPieces doc bef aft ctx rest

/-- No occurrence of the pattern can start at the front of x followed by
anything: x neither extends to the pattern nor begins with it. -/
def startBlocked (pattern x : List Char) : Prop :=
  ¬ pattern <+: x ∧ ¬ (x <+: pattern ∧ x.length < pattern.length)

/-- Executable form of startBlocked. -/
def startBlockedB (pattern x : List Char) : Bool :=
  !(pattern.isPrefixOf x)
    && !((x.isPrefixOf pattern) && decide (x.length < pattern.length))

/-- A literal text segment is safe when no placeholder token occurrence
can start inside it, whatever text follows it: it neither contains a
token nor ends in a proper nonempty prefix of one.  Unknown
placeholders such as \x7bunknown\x7d are safe. -/
def safeLitB (L : List Char) : Bool :=
  placeholderTokens.all fun t =>
    (List.range L.length).all fun i => startBlockedB t (L.drop i)

/-- Every literal piece of the template is safe. -/
def piecesSafeB : List TemplatePiece → Bool
  | [] => true
  | TemplatePiece.lit L :: rest => safeLitB L && piecesSafeB rest
  | TemplatePiece.ph _ :: rest => piecesSafeB rest

/-- Per-document settings: optional template override plus ordered
context file paths (interface DocumentSettings). -/
structure DocumentSettings where
  promptTemplate : Option String
  contextFiles : List String
deriving DecidableEq, Repr

/-- The Map<string, DocumentSettings> held by DocumentSettingsManager,
as an insertion-ordered association list. -/
abbrev SettingsMap := List (String × DocumentSettings)

namespace DocumentSettingsManager

/-- Map.get: the settings currently stored for a document uri. -/
def lookupSettings : SettingsMap → String → Option DocumentSettings
  | [], _ => none
  | (k, v) :: rest, documentUri =>
    if k = documentUri then some v else lookupSettings rest documentUri

/-- Map.set: replace the value in place when the key is present,
otherwise append the new entry (JavaScript Map insertion order). -/
def setEntry : SettingsMap → String → DocumentSettings → SettingsMap
  | [], documentUri, v => [(documentUri, v)]
  | (k, w) :: rest, documentUri, v =>
    if k = documentUri then (k, v) :: rest
    else (k, w) :: setEntry rest documentUri v

/-- DocumentSettingsManager.getSettings: lazily creates the default
settings record on first access.  Mutation of the returned record is
modelled by writing the updated record back with setEntry. -/
def getSettings (m : SettingsMap) (documentUri : String) :
    DocumentSettings × SettingsMap :=
  match lookupSettings m documentUri with
  | some v => (v, m)
  | none =>
    ({ promptTemplate := none, contextFiles := [] },
     setEntry m documentUri { promptTemplate := none, contextFiles := [] })

/-- DocumentSettingsManager.setPromptTemplate. -/
def setPromptTemplate (m : SettingsMap) (documentUri template : String) :
    SettingsMap :=
  let g := getSettings m documentUri
  setEntry g.2 documentUri { g.1 with promptTemplate := some template }

/-- DocumentSettingsManager.addContextFile: push the path unless it is
already present. -/
def addContextFile (m : SettingsMap) (documentUri filePath : String) :
    SettingsMap :=
  let g := getSettings m documentUri
  if filePath ∈ g.1.contextFiles then g.2
  else setEntry g.2 documentUri
    { g.1 with contextFiles := g.1.contextFiles ++ [filePath] }

/-- DocumentSettingsManager.removeContextFile: indexOf followed by a
one-element splice removes the first occurrence when present. -/
def removeContextFile (m : SettingsMap) (documentUri filePath : String) :
    SettingsMap :=
  let g := getSettings m documentUri
  if filePath ∈ g.1.contextFiles then
    setEntry g.2 documentUri
      { g.1 with contextFiles := g.1.contextFiles.erase filePath }
  else g.2

/-- DocumentSettingsManager.getContextFiles (reads through getSettings,
which may materialise the default entry). -/
def getContextFiles (m : SettingsMap) (documentUri : String) :
    List String × SettingsMap :=
  let g := getSettings m documentUri
  (g.1.contextFiles, g.2)

end DocumentSettingsManager

namespace PromptBuilder

/-- The per-file delimiter block appended for each loaded context
file. -/
def contextEntry (filePath content : String) : String :=
  "\n--- Context from " ++ filePath ++ " ---\n" ++ content ++ "\n"

/-- The context-file loading loop of buildPrompt: each configured path
is attempted in order; a path whose read throws is silently skipped. -/
def loadContextFiles (fs : String → Except Unit String) :
    List String → String
  | [] => ""
  | filePath :: rest =>
    (match fs filePath with
     | Except.ok text => contextEntry filePath text
     | Except.error _ => "") ++ loadContextFiles fs rest

/-- The fixed sentinel the cursor placeholder is replaced with. -/
def cursorMarker : String := "[CURSOR HERE]"

/-- PromptBuilder.buildPrompt: resolves the effective template (the
JavaScript || also sends an empty custom template to the default),
loads the context files, then performs the five global substitutions in
the source's order: document, before_cursor, after_cursor,
context_files, cursor. -/
def buildPrompt (fs : String → Except Unit String)
    (settings : DocumentSettings) (defaultTemplate : String)
    (fullDocument textBeforeCursor textAfterCursor : String) : String :=
  let template :=
    match settings.promptTemplate with
    | some t => if t = "" then defaultTemplate else t
    | none => defaultTemplate
  let contextContent := loadContextFiles fs settings.contextFiles
  replaceAllS (replaceAllS (replaceAllS (replaceAllS (replaceAllS
    template "{document}" fullDocument)
    "{before_cursor}" textBeforeCursor)
    "{after_cursor}" textAfterCursor)
    "{context_files}" contextContent)
    "{cursor}" cursorMarker

/-- Modelled from the spec: the spec reads the five substitutions as
order-independent ("substituting, in any order").  This variant applies
the cursor substitution first and the document substitution last; it is
not part of the source and exists only to compare substitution orders
on inputs whose substituted content itself contains placeholder
tokens. -/
def buildPromptCursorFirst (fs : String → Except Unit String)
    (settings : DocumentSettings) (defaultTemplate : String)
    (fullDocument textBeforeCursor textAfterCursor : String) : String :=
  let template :=
    match settings.promptTemplate with
    | some t => if t = "" then defaultTemplate else t
    | none => defaultTemplate
  let contextContent := loadContextFiles fs settings.contextFiles
  replaceAllS (replaceAllS (replaceAllS (replaceAllS (replaceAllS
    template "{cursor}" cursorMarker)
    "{context_files}" contextContent)
    "{after_cursor}" textAfterCursor)
    "{before_cursor}" textBeforeCursor)
    "{document}" fullDocument

end PromptBuilder

lemma createdIds_append (a b : List CoordEvent) :
    createdIds (a ++ b) = createdIds a ++ createdIds b :=
  List.filterMap_append a b _

lemma settleCount_append (a b : List CoordEvent) (i : Nat) :
    settleCount (a ++ b) i = settleCount a i + settleCount b i :=
  List.countP_append _ a b

lemma createdIds_created_singleton (b : Nat) :
    createdIds [CoordEvent.created b] = [b] := rfl

lemma createdIds_settled_singleton (a : Nat) (it : List InlineCompletionItem) :
    createdIds [CoordEvent.settled a it] = [] := rfl

lemma settleCount_created_singleton (b i : Nat) :
    settleCount [CoordEvent.created b] i = 0 := by
  simp [settleCount, List.countP_cons, List.countP_nil]

lemma settleCount_settled_singleton (a i : Nat) (it : List InlineCompletionItem) :
    settleCount [CoordEvent.settled a it] i = if a = i then 1 else 0 := by
  by_cases h : a = i
  · simp [settleCount, List.countP_cons, List.countP_nil, h]
  · simp [settleCount, List.countP_cons, List.countP_nil, h]

lemma unsettledIds_append_created (tr : List CoordEvent) (b : Nat)
    (hb : settleCount tr b = 0) :
    unsettledIds (tr ++ [CoordEvent.created b]) = unsettledIds tr ++ [b] := by
  have hpred : ∀ i, (settleCount (tr ++ [CoordEvent.created b]) i == 0)
      = (settleCount tr i == 0) := by
    intro i
    rw [settleCount_append, settleCount_created_singleton, Nat.add_zero]
  unfold unsettledIds
  rw [createdIds_append, createdIds_created_singleton, List.filter_append]
  simp only [hpred]
  simp [List.filter_cons, hb]

lemma unsettledIds_append_settled (tr : List CoordEvent) (a : Nat)
    (it : List InlineCompletionItem) :
    unsettledIds (tr ++ [CoordEvent.settled a it])
      = (unsettledIds tr).filter (fun i => !(a == i)) := by
  have hpred : ∀ i, (settleCount (tr ++ [CoordEvent.settled a it]) i == 0)
      = (!(a == i) && (settleCount tr i == 0)) := by
    intro i
    rw [settleCount_append, settleCount_settled_singleton]
    by_cases h : a = i
    · simp [h]
    · simp [h]
  unfold unsettledIds
  rw [createdIds_append, createdIds_settled_singleton, List.append_nil,
    List.filter_filter]
  simp only [hpred]

lemma mem_unsettledIds {tr : List CoordEvent} {i : Nat} :
    i ∈ unsettledIds tr ↔ i ∈ createdIds tr ∧ settleCount tr i = 0 := by
  unfold unsettledIds
  rw [List.mem_filter]
  simp

/-- Invariant tying a coordinator state to the trace of promise events
produced so far: created identifiers are distinct and below the
allocation counter, no future settles twice, settled futures were
created, the unsettled futures are exactly the pending one, and every
instant of the trace shows at most one unsettled future. -/
def CoordInv (s : CoordState) (tr : List CoordEvent) : Prop :=
  (createdIds tr).Nodup ∧
  (∀ i, settleCount tr i ≤ 1) ∧
  (∀ i ∈ createdIds tr, i < s.nextId) ∧
  (∀ i, settleCount tr i ≠ 0 → i ∈ createdIds tr) ∧
  unsettledIds tr = pendingIds s ∧
  (∀ tq, tq <+: tr → (unsettledIds tq).length ≤ 1)

lemma prefix_append_split {α : Type} {tq tr ev : List α} (h : tq <+: tr ++ ev) :
    tq <+: tr ∨ ∃ ev2, ev2 <+: ev ∧ tq = tr ++ ev2 := by
  by_cases hl : tq.length ≤ tr.length
  · exact Or.inl (List.prefix_of_prefix_length_le h (List.prefix_append tr ev) hl)
  · right
    have htr : tr <+: tq :=
      List.prefix_of_prefix_length_le (List.prefix_append tr ev) h
        (Nat.le_of_lt (Nat.lt_of_not_le hl))
    obtain ⟨ev2, rfl⟩ := htr
    refine ⟨ev2, ?_, rfl⟩
    obtain ⟨t, ht⟩ := h
    rw [List.append_assoc] at ht
    exact ⟨t, List.append_cancel_left ht⟩

lemma prefix_of_singleton {α : Type} {l : List α} {x : α} (h : l <+: [x]) :
    l = [] ∨ l = [x] := by
  obtain ⟨t, ht⟩ := h
  cases l with
  | nil => exact Or.inl rfl
  | cons a l2 =>
    right
    simp only [List.cons_append, List.cons.injEq] at ht
    obtain ⟨rfl, ht2⟩ := ht
    have h2 := List.append_eq_nil.mp ht2
    rw [h2.1]

lemma prefix_of_pair {α : Type} {l : List α} {x y : α} (h : l <+: [x, y]) :
    l = [] ∨ l = [x] ∨ l = [x, y] := by
  obtain ⟨t, ht⟩ := h
  cases l with
  | nil => exact Or.inl rfl
  | cons a l2 =>
    simp only [List.cons_append, List.cons.injEq] at ht
    obtain ⟨rfl, ht2⟩ := ht
    have h2 : l2 <+: [y] := ⟨t, ht2⟩
    rcases prefix_of_singleton h2 with h3 | h3
    · rw [h3]; simp
    · rw [h3]; simp

lemma unsettledIds_settle_pending {tr : List CoordEvent} {a : Nat}
    (it : List InlineCompletionItem) (hpend : unsettledIds tr = [a]) :
    unsettledIds (tr ++ [CoordEvent.settled a it]) = [] := by
  rw [unsettledIds_append_settled, hpend]
  simp

lemma pending_mem_of_unsettled {tr : List CoordEvent} {a : Nat}
    (hpend : unsettledIds tr = [a]) :
    a ∈ createdIds tr ∧ settleCount tr a = 0 := by
  have hm : a ∈ unsettledIds tr := by rw [hpend]; exact List.mem_singleton_self a
  exact mem_unsettledIds.mp hm

/-- One coordinator operation preserves the coordinator invariant. -/
lemma coordInv_step {s : CoordState} {tr : List CoordEvent}
    (hinv : CoordInv s tr) (op : CoordOp) :
    CoordInv (stepCoord s op).1 (tr ++ (stepCoord s op).2) := by
  obtain ⟨hnd, hcnt, hfresh, hsub, hpend, hpre⟩ := hinv
  have hfreshCnt : settleCount tr s.nextId = 0 := by
    by_contra h
    exact Nat.lt_irrefl s.nextId (hfresh s.nextId (hsub s.nextId h))
  have hfreshMem : s.nextId ∉ createdIds tr := fun hm =>
    Nat.lt_irrefl s.nextId (hfresh s.nextId hm)
  cases op with
  | begin uri pos =>
    cases hp : s.pendingRequest with
    | none =>
      have hpnil : unsettledIds tr = [] := by
        rw [hpend]; unfold pendingIds; rw [hp]
      simp only [stepCoord, CompletionRequestManager.createPendingRequest, hp,
        List.nil_append]
      refine ⟨?_, ?_, ?_, ?_, ?_, ?_⟩
      · rw [createdIds_append, createdIds_created_singleton]
        simp [List.nodup_append, hnd, hfreshMem]
      · intro i
        rw [settleCount_append, settleCount_created_singleton, Nat.add_zero]
        exact hcnt i
      · intro i hi
        rw [createdIds_append, createdIds_created_singleton] at hi
        rcases List.mem_append.mp hi with h | h
        · exact Nat.lt_succ_of_lt (hfresh i h)
        · rw [List.mem_singleton.mp h]; exact Nat.lt_succ_self _
      · intro i hi
        rw [settleCount_append, settleCount_created_singleton, Nat.add_zero] at hi
        rw [createdIds_append, createdIds_created_singleton]
        exact List.mem_append.mpr (Or.inl (hsub i hi))
      · rw [unsettledIds_append_created tr s.nextId hfreshCnt, hpnil]
        rfl
      · intro tq htq
        rcases prefix_append_split htq with h | ⟨ev2, hev2, rfl⟩
        · exact hpre tq h
        · rcases prefix_of_singleton hev2 with h2 | h2
          · rw [h2, List.append_nil]
            exact hpre tr (List.prefix_refl tr)
          · rw [h2, unsettledIds_append_created tr s.nextId hfreshCnt, hpnil]
            simp
    | some pr =>
      have hpone : unsettledIds tr = [pr.futureId] := by
        rw [hpend]; unfold pendingIds; rw [hp]
      obtain ⟨hamem, hacnt⟩ := pending_mem_of_unsettled hpone
      have hane : pr.futureId ≠ s.nextId := fun h =>
        Nat.lt_irrefl s.nextId (h ▸ hfresh pr.futureId hamem)
      have hcntSettled : settleCount (tr ++ [CoordEvent.settled pr.futureId []])
          s.nextId = 0 := by
        rw [settleCount_append, settleCount_settled_singleton, hfreshCnt,
          if_neg hane]
      have hunsSettled :
          unsettledIds (tr ++ [CoordEvent.settled pr.futureId []]) = [] :=
        unsettledIds_settle_pending [] hpone
      simp only [stepCoord, CompletionRequestManager.createPendingRequest, hp]
      refine ⟨?_, ?_, ?_, ?_, ?_, ?_⟩
      · rw [← List.append_assoc, createdIds_append, createdIds_append,
          createdIds_settled_singleton, createdIds_created_singleton,
          List.append_nil]
        simp [List.nodup_append, hnd, hfreshMem]
      · intro i
        rw [← List.append_assoc, settleCount_append,
          settleCount_created_singleton, Nat.add_zero, settleCount_append,
          settleCount_settled_singleton]
        by_cases h : pr.futureId = i
        · rw [if_pos h, ← h, hacnt]
        · rw [if_neg h, Nat.add_zero]
          exact hcnt i
      · intro i hi
        rw [← List.append_assoc, createdIds_append, createdIds_append,
          createdIds_settled_singleton, createdIds_created_singleton,
          List.append_nil] at hi
        rcases List.mem_append.mp hi with h | h
        · exact Nat.lt_succ_of_lt (hfresh i h)
        · rw [List.mem_singleton.mp h]; exact Nat.lt_succ_self _
      · intro i hi
        rw [← List.append_assoc, settleCount_append,
          settleCount_created_singleton, Nat.add_zero, settleCount_append,
          settleCount_settled_singleton] at hi
        rw [← List.append_assoc, createdIds_append, createdIds_append,
          createdIds_settled_singleton, createdIds_created_singleton,
          List.append_nil]
        refine List.mem_append.mpr (Or.inl ?_)
        by_cases h : pr.futureId = i
        · rw [← h]; exact hamem
        · rw [if_neg h, Nat.add_zero] at hi
          exact hsub i hi
      · rw [← List.append_assoc,
          unsettledIds_append_created _ s.nextId hcntSettled, hunsSettled]
        rfl
      · intro tq htq
        rcases prefix_append_split htq with h | ⟨ev2, hev2, rfl⟩
        · exact hpre tq h
        · have hev2b : ev2 <+: [CoordEvent.settled pr.futureId [],
              CoordEvent.created s.nextId] := hev2
          rcases prefix_of_pair hev2b with h2 | h2 | h2
          · rw [h2, List.append_nil]
            exact hpre tr (List.prefix_refl tr)
          · rw [h2, unsettledIds_settle_pending [] hpone]
            simp
          · rw [h2]
            show (unsettledIds (tr ++ ([CoordEvent.settled pr.futureId []]
              ++ [CoordEvent.created s.nextId]))).length ≤ 1
            rw [← List.append_assoc,
              unsettledIds_append_created _ s.nextId hcntSettled, hunsSettled]
            simp
  | resolve items =>
    cases hp : s.pendingRequest with
    | none =>
      simp only [stepCoord, CompletionRequestManager.resolveRequest, hp,
        List.append_nil]
      exact ⟨hnd, hcnt, hfresh, hsub, hpend, hpre⟩
    | some pr =>
      have hpone : unsettledIds tr = [pr.futureId] := by
        rw [hpend]; unfold pendingIds; rw [hp]
      obtain ⟨hamem, hacnt⟩ := pending_mem_of_unsettled hpone
      simp only [stepCoord, CompletionRequestManager.resolveRequest, hp]
      refine ⟨?_, ?_, ?_, ?_, ?_, ?_⟩
      · rw [createdIds_append, createdIds_settled_singleton, List.append_nil]
        exact hnd
      · intro i
        rw [settleCount_append, settleCount_settled_singleton]
        by_cases h : pr.futureId = i
        · rw [if_pos h, ← h, hacnt]
        · rw [if_neg h, Nat.add_zero]
          exact hcnt i
      · intro i hi
        rw [createdIds_append, createdIds_settled_singleton,
          List.append_nil] at hi
        exact hfresh i hi
      · intro i hi
        rw [settleCount_append, settleCount_settled_singleton] at hi
        rw [createdIds_append, createdIds_settled_singleton, List.append_nil]
        by_cases h : pr.futureId = i
        · rw [← h]; exact hamem
        · rw [if_neg h, Nat.add_zero] at hi
          exact hsub i hi
      · rw [unsettledIds_settle_pending items hpone]
        rfl
      · intro tq htq
        rcases prefix_append_split htq with h | ⟨ev2, hev2, rfl⟩
        · exact hpre tq h
        · rcases prefix_of_singleton hev2 with h2 | h2
          · rw [h2, List.append_nil]
            exact hpre tr (List.prefix_refl tr)
          · rw [h2, unsettledIds_settle_pending items hpone]
            simp
  | cancel =>
    cases hp : s.pendingRequest with
    | none =>
      simp only [stepCoord, CompletionRequestManager.cancelRequest, hp,
        List.append_nil]
      exact ⟨hnd, hcnt, hfresh, hsub, hpend, hpre⟩
    | some pr =>
      have hpone : unsettledIds tr = [pr.futureId] := by
        rw [hpend]; unfold pendingIds; rw [hp]
      obtain ⟨hamem, hacnt⟩ := pending_mem_of_unsettled hpone
      simp only [stepCoord, CompletionRequestManager.cancelRequest, hp]
      refine ⟨?_, ?_, ?_, ?_, ?_, ?_⟩
      · rw [createdIds_append, createdIds_settled_singleton, List.append_nil]
        exact hnd
      · intro i
        rw [settleCount_append, settleCount_settled_singleton]
        by_cases h : pr.futureId = i
        · rw [if_pos h, ← h, hacnt]
        · rw [if_neg h, Nat.add_zero]
          exact hcnt i
      · intro i hi
        rw [createdIds_append, createdIds_settled_singleton,
          List.append_nil] at hi
        exact hfresh i hi
      · intro i hi
        rw [settleCount_append, settleCount_settled_singleton] at hi
        rw [createdIds_append, createdIds_settled_singleton, List.append_nil]
        by_cases h : pr.futureId = i
        · rw [← h]; exact hamem
        · rw [if_neg h, Nat.add_zero] at hi
          exact hsub i hi
      · rw [unsettledIds_settle_pending [] hpone]
        rfl
      · intro tq htq
        rcases prefix_append_split htq with h | ⟨ev2, hev2, rfl⟩
        · exact hpre tq h
        · rcases prefix_of_singleton hev2 with h2 | h2
          · rw [h2, List.append_nil]
            exact hpre tr (List.prefix_refl tr)
          · rw [h2, unsettledIds_settle_pending [] hpone]
            simp

/-- Running any operation sequence from an invariant-satisfying
configuration preserves the invariant. -/
lemma coordInv_runFrom {s : CoordState} {tr : List CoordEvent}
    (hinv : CoordInv s tr) (ops : List CoordOp) :
    CoordInv (runCoordFrom s tr ops).1 (runCoordFrom s tr ops).2 := by
  induction ops generalizing s tr with
  | nil => exact hinv
  | cons op ops ih =>
    exact ih (coordInv_step hinv op)

lemma coordInv_init : CoordInv initCoordState [] := by
  refine ⟨List.nodup_nil, ?_, ?_, ?_, rfl, ?_⟩
  · intro i
    simp [settleCount]
  · intro i hi
    simp [createdIds] at hi
  · intro i hi
    simp [settleCount] at hi
  · intro tq htq
    rw [List.prefix_nil.mp htq]
    decide

/-- Every run of the coordinator from the fresh state satisfies the
invariant. -/
lemma coordInv_run (ops : List CoordOp) :
    CoordInv (runCoord ops).1 (runCoord ops).2 :=
  coordInv_runFrom coordInv_init ops

/-- Claim C1: single-flight invariant.  For every sequence of
createPendingRequest, resolveRequest and cancelRequest operations on the
coordinator, at every instant of the resulting promise-event trace at
most one future is pending (created and not settled); and whenever
createPendingRequest runs while a request is pending, the event list of
that step settles the old future with an empty item list strictly before
the new future is created, the new future is distinct from the old one,
and afterwards the new future occupies the pending slot. -/
theorem coordinator_single_flight (ops : List CoordOp) :
    (∀ tq, tq <+: (runCoord ops).2 → (unsettledIds tq).length ≤ 1)
    ∧ (∀ uri pos pr, (runCoord ops).1.pendingRequest = some pr →
        (stepCoord (runCoord ops).1 (CoordOp.begin uri pos)).2
          = [CoordEvent.settled pr.futureId [],
             CoordEvent.created (runCoord ops).1.nextId]
        ∧ pr.futureId ≠ (runCoord ops).1.nextId
        ∧ (stepCoord (runCoord ops).1 (CoordOp.begin uri pos)).1.pendingRequest
          = some ⟨uri, pos, (runCoord ops).1.nextId⟩) := by
  obtain ⟨hnd, hcnt, hfresh, hsub, hpend, hpre⟩ := coordInv_run ops
  refine ⟨hpre, ?_⟩
  intro uri pos pr hp
  have hpone : unsettledIds (runCoord ops).2 = [pr.futureId] := by
    rw [hpend]; unfold pendingIds; rw [hp]
  obtain ⟨hamem, _⟩ := pending_mem_of_unsettled hpone
  have hane : pr.futureId ≠ (runCoord ops).1.nextId := fun h =>
    Nat.lt_irrefl _ (h ▸ hfresh pr.futureId hamem)
  refine ⟨?_, hane, ?_⟩
  · simp [stepCoord, CompletionRequestManager.createPendingRequest, hp]
  · simp [stepCoord, CompletionRequestManager.createPendingRequest, hp]

/-- Witness for claim C1 at a concrete run: one begin operation, then a
second begin is issued while the first is pending. -/
theorem coordinator_single_flight_witness :
    (unsettledIds (runCoord [CoordOp.begin "a" ⟨0, 0⟩]).2).length ≤ 1
    ∧ (stepCoord (runCoord [CoordOp.begin "a" ⟨0, 0⟩]).1
        (CoordOp.begin "b" ⟨1, 1⟩)).2
      = [CoordEvent.settled 0 [], CoordEvent.created 1] :=
  ⟨(coordinator_single_flight [CoordOp.begin "a" ⟨0, 0⟩]).1 _
      (List.prefix_refl _),
   ((coordinator_single_flight [CoordOp.begin "a" ⟨0, 0⟩]).2 "b" ⟨1, 1⟩
      ⟨"a", ⟨0, 0⟩, 0⟩ (by decide)).1⟩

/-- Claim C2: settlement exactly once.  In every run of coordinator
operations no future is settled twice; every future created during the
run, other than the one still occupying the pending slot, is settled
exactly once; in particular when the run ends with no pending request
(each begin's owning handler ran to completion) every created future is
settled exactly once. -/
theorem coordinator_settles_each_future_once (ops : List CoordOp) :
    (∀ i, settleCount (runCoord ops).2 i ≤ 1)
    ∧ (∀ i ∈ createdIds (runCoord ops).2,
        i ∉ pendingIds (runCoord ops).1 →
        settleCount (runCoord ops).2 i = 1)
    ∧ ((runCoord ops).1.pendingRequest = none →
        ∀ i ∈ createdIds (runCoord ops).2,
          settleCount (runCoord ops).2 i = 1) := by
  obtain ⟨hnd, hcnt, hfresh, hsub, hpend, hpre⟩ := coordInv_run ops
  have hmain : ∀ i ∈ createdIds (runCoord ops).2,
      i ∉ pendingIds (runCoord ops).1 →
      settleCount (runCoord ops).2 i = 1 := by
    intro i hmem hnp
    have hne : settleCount (runCoord ops).2 i ≠ 0 := by
      intro h0
      exact hnp (hpend ▸ mem_unsettledIds.mpr ⟨hmem, h0⟩)
    have hle := hcnt i
    omega
  refine ⟨hcnt, hmain, ?_⟩
  intro hp i hmem
  refine hmain i hmem ?_
  unfold pendingIds
  rw [hp]
  exact List.not_mem_nil i

/-- Witness for claim C2: a run with a supersession and a final resolve
settles both created futures exactly once. -/
theorem coordinator_settles_each_future_once_witness :
    settleCount (runCoord [CoordOp.begin "a" ⟨0, 0⟩, CoordOp.begin "b" ⟨1, 2⟩,
      CoordOp.resolve []]).2 0 = 1
    ∧ settleCount (runCoord [CoordOp.begin "a" ⟨0, 0⟩,
        CoordOp.begin "b" ⟨1, 2⟩, CoordOp.resolve []]).2 1 = 1 :=
  ⟨(coordinator_settles_each_future_once [CoordOp.begin "a" ⟨0, 0⟩,
      CoordOp.begin "b" ⟨1, 2⟩, CoordOp.resolve []]).2.2 (by decide) 0
      (by decide),
   (coordinator_settles_each_future_once [CoordOp.begin "a" ⟨0, 0⟩,
      CoordOp.begin "b" ⟨1, 2⟩, CoordOp.resolve []]).2.2 (by decide) 1
      (by decide)⟩

/-- Claim C3 counterexample: getCompletionResult in the stored-result
variant is not a pure read.  At a concrete state holding a result for
"doc" with read counter 0, calling it for "doc" returns a state that
differs from the input state (the counter was incremented). -/
theorem get_completion_result_mutates_state :
    (CompletionTriggerManager.getCompletionResult
      ⟨none, some [⟨"t", ⟨0, 0⟩, ⟨0, 0⟩⟩], some "doc", none, 0⟩ "doc").2
    ≠ ⟨none, some [⟨"t", ⟨0, 0⟩, ⟨0, 0⟩⟩], some "doc", none, 0⟩ := by
  decide

/-- Claim C3 (amended): getPendingPromise is a pure read — it returns
the outstanding future exactly when the pending request's owning
document matches, and the state component of its result is the input
state unchanged.  getCompletionResult, however, mutates state on every
matching read: it returns the stored result but increments the read
counter, clearing the stored result and owning uri once the counter
exceeds three; only a non-matching read leaves the state unchanged. -/
theorem peek_pending_observation_behavior :
    (∀ (s : CoordState) (uri : String),
      CompletionRequestManager.getPendingPromise s uri
        = ((match s.pendingRequest with
            | some pr => if pr.documentUri = uri then some pr.futureId else none
            | none => none), s))
    ∧ (∀ (st : TriggerState) (uri : String) (r : List InlineCompletionItem),
        st.completionDocUri = some uri → st.completionResult = some r →
        (CompletionTriggerManager.getCompletionResult st uri).1 = some r
        ∧ (CompletionTriggerManager.getCompletionResult st uri).2.resultCallCount
            = st.resultCallCount + 1
        ∧ (st.resultCallCount + 1 > 3 →
            (CompletionTriggerManager.getCompletionResult st uri).2
              = { st with
                  completionResult := none
                  completionDocUri := none
                  resultCallCount := st.resultCallCount + 1 })
        ∧ (¬ st.resultCallCount + 1 > 3 →
            (CompletionTriggerManager.getCompletionResult st uri).2
              = { st with resultCallCount := st.resultCallCount + 1 }))
    ∧ (∀ (st : TriggerState) (uri : String),
        st.completionDocUri ≠ some uri →
        CompletionTriggerManager.getCompletionResult st uri = (none, st)) := by
  refine ⟨?_, ?_, ?_⟩
  · intro s uri
    cases hp : s.pendingRequest with
    | none => simp [CompletionRequestManager.getPendingPromise, hp]
    | some pr =>
      by_cases hd : pr.documentUri = uri
      · simp [CompletionRequestManager.getPendingPromise, hp, hd]
      · simp [CompletionRequestManager.getPendingPromise, hp, hd]
  · intro st uri r h1 h2
    by_cases hc : st.resultCallCount + 1 > 3
    · simp [CompletionTriggerManager.getCompletionResult, h1, h2, hc]
    · simp [CompletionTriggerManager.getCompletionResult, h1, h2, hc]
  · intro st uri hne
    cases h1 : st.completionDocUri with
    | none =>
      cases h2 : st.completionResult with
      | none => simp [CompletionTriggerManager.getCompletionResult, h1, h2]
      | some r => simp [CompletionTriggerManager.getCompletionResult, h1, h2]
    | some u =>
      have hu : u ≠ uri := fun h => hne (h ▸ h1)
      cases h2 : st.completionResult with
      | none => simp [CompletionTriggerManager.getCompletionResult, h1, h2]
      | some r => simp [CompletionTriggerManager.getCompletionResult, h1, h2, hu]

/-- Witness for the amended claim C3 at a concrete stored-result state:
the matching read returns the stored items and bumps the counter to 1. -/
theorem peek_pending_observation_behavior_witness :
    (CompletionTriggerManager.getCompletionResult
      ⟨none, some [⟨"t", ⟨0, 0⟩, ⟨0, 0⟩⟩], some "doc", none, 0⟩ "doc").1
      = some [⟨"t", ⟨0, 0⟩, ⟨0, 0⟩⟩]
    ∧ (CompletionTriggerManager.getCompletionResult
      ⟨none, some [⟨"t", ⟨0, 0⟩, ⟨0, 0⟩⟩], some "doc", none, 0⟩
        "doc").2.resultCallCount = 1 :=
  ⟨(peek_pending_observation_behavior.2.1
      ⟨none, some [⟨"t", ⟨0, 0⟩, ⟨0, 0⟩⟩], some "doc", none, 0⟩ "doc"
      [⟨"t", ⟨0, 0⟩, ⟨0, 0⟩⟩] rfl rfl).1,
   (peek_pending_observation_behavior.2.1
      ⟨none, some [⟨"t", ⟨0, 0⟩, ⟨0, 0⟩⟩], some "doc", none, 0⟩ "doc"
      [⟨"t", ⟨0, 0⟩, ⟨0, 0⟩⟩] rfl rfl).2.1⟩

/-- Claim C5: provider decline.  Both provider variants return null
immediately for a non-markdown document, whatever request or result is
pending; for a markdown document the promise-based provider returns
exactly the coordinator's pending promise for that document (null when
none matches), and it never mutates the request manager's state (and,
as its type shows, it performs no backend call). -/
theorem provider_decline_behavior (s : CoordState) (st : TriggerState)
    (languageId uri : String) :
    (languageId ≠ "markdown" →
      (ComplementryCompletionProvider.provideInlineCompletionItems
        s languageId uri).1 = none
      ∧ (StoredResultProvider.provideInlineCompletionItems
        st languageId uri).1 = none)
    ∧ (languageId = "markdown" →
      (ComplementryCompletionProvider.provideInlineCompletionItems
        s languageId uri).1
        = (match s.pendingRequest with
           | some pr => if pr.documentUri = uri then some pr.futureId else none
           | none => none))
    ∧ (ComplementryCompletionProvider.provideInlineCompletionItems
        s languageId uri).2 = s := by
  refine ⟨?_, ?_, ?_⟩
  · intro h
    constructor
    · simp [ComplementryCompletionProvider.provideInlineCompletionItems, h]
    · simp [StoredResultProvider.provideInlineCompletionItems, h]
  · intro h
    subst h
    cases hp : s.pendingRequest with
    | none =>
      simp [ComplementryCompletionProvider.provideInlineCompletionItems,
        CompletionRequestManager.getPendingPromise, hp]
    | some pr =>
      by_cases hd : pr.documentUri = uri
      · simp [ComplementryCompletionProvider.provideInlineCompletionItems,
          CompletionRequestManager.getPendingPromise, hp, hd]
      · simp [ComplementryCompletionProvider.provideInlineCompletionItems,
          CompletionRequestManager.getPendingPromise, hp, hd]
  · by_cases h : languageId = "markdown"
    · cases hp : s.pendingRequest with
      | none =>
        simp [ComplementryCompletionProvider.provideInlineCompletionItems,
          CompletionRequestManager.getPendingPromise, h, hp]
      | some pr =>
        by_cases hd : pr.documentUri = uri
        · simp [ComplementryCompletionProvider.provideInlineCompletionItems,
            CompletionRequestManager.getPendingPromise, h, hp, hd]
        · simp [ComplementryCompletionProvider.provideInlineCompletionItems,
            CompletionRequestManager.getPendingPromise, h, hp, hd]
    · simp [ComplementryCompletionProvider.provideInlineCompletionItems, h]

/-- Witness for claim C5 at a concrete input: a Python document is
declined by both providers even though a request is pending for a
different document. -/
theorem provider_decline_behavior_witness :
    (ComplementryCompletionProvider.provideInlineCompletionItems
      ⟨some ⟨"other", ⟨0, 0⟩, 5⟩, 6⟩ "python" "doc").1 = none
    ∧ (StoredResultProvider.provideInlineCompletionItems
      ⟨none, some [], some "other", none, 0⟩ "python" "doc").1 = none :=
  (provider_decline_behavior ⟨some ⟨"other", ⟨0, 0⟩, 5⟩, 6⟩
    ⟨none, some [], some "other", none, 0⟩ "python" "doc").1 (by decide)

/-- Claim C4: ordering of re-invocation.  For every starting state,
document, position and backend outcome, the trigger-completion flow
performs exactly the steps {create pending future, issue the host's
re-invoke-provider request, await the backend, settle the future} in
that order; in particular the re-invocation is issued before the
backend is awaited, and at the moment the provider is re-entered it
observes the pending promise for the triggering document. -/
theorem trigger_flow_ordering (s : CoordState) (uri : String)
    (pos : Position) (o : BackendOutcome) :
    (triggerCompletion s "markdown" uri pos o).2.2
      = [HandlerEvent.createdPending s.nextId,
         HandlerEvent.reinvokeIssued (some s.nextId),
         HandlerEvent.backendAwaited (LLMService.awaitCompletion o),
         HandlerEvent.resolvedPending [CoordEvent.settled s.nextId
           (completionItems pos (LLMService.awaitCompletion o))]] := by
  simp [triggerCompletion, CompletionRequestManager.createPendingRequest,
    CompletionRequestManager.getPendingPromise,
    CompletionRequestManager.resolveRequest]

/-- Claim C6: backend fail-soft.  getCompletion never propagates an
exception (its result is always ok), any provider failure is reported
as null, and when the awaited result is null the trigger flow settles
the pending future with an empty item list and leaves no pending
request behind. -/
theorem backend_fail_soft (o : BackendOutcome) (s : CoordState)
    (uri : String) (pos : Position) :
    (∃ v, LLMService.getCompletion o = Except.ok v)
    ∧ (∀ m, LLMService.getCompletion (BackendOutcome.failure m)
        = Except.ok none)
    ∧ (LLMService.awaitCompletion o = none →
        (triggerCompletion s "markdown" uri pos o).1.pendingRequest = none
        ∧ CoordEvent.settled s.nextId []
            ∈ (triggerCompletion s "markdown" uri pos o).2.1) := by
  refine ⟨?_, ?_, ?_⟩
  · cases o with
    | success t => exact ⟨_, rfl⟩
    | failure m => exact ⟨none, rfl⟩
  · intro m
    rfl
  · intro h
    constructor
    · simp [triggerCompletion, CompletionRequestManager.createPendingRequest,
        CompletionRequestManager.resolveRequest, h, completionItems]
    · simp [triggerCompletion, CompletionRequestManager.createPendingRequest,
        CompletionRequestManager.resolveRequest, h, completionItems]

/-- Witness for claim C6: a network failure resolves the pending future
empty and clears the pending slot. -/
theorem backend_fail_soft_witness :
    (triggerCompletion initCoordState "markdown" "doc" ⟨0, 0⟩
      (BackendOutcome.failure "network")).1.pendingRequest = none
    ∧ CoordEvent.settled 0 []
        ∈ (triggerCompletion initCoordState "markdown" "doc" ⟨0, 0⟩
          (BackendOutcome.failure "network")).2.1 :=
  (backend_fail_soft (BackendOutcome.failure "network") initCoordState "doc"
    ⟨0, 0⟩).2.2 (by decide)

lemma replaceAllLitFuel_nil (p r : List Char) (fuel : Nat) :
    replaceAllLitFuel p r fuel [] = [] := by
  cases fuel <;> rfl

lemma replaceAllLit_nil (p r : List Char) : replaceAllLit p r [] = [] := rfl

lemma replaceAll_nil (p r : List Char) : replaceAll p r [] = [] := rfl

lemma replaceAllLitFuel_congr (p r : List Char) :
    ∀ (f1 f2 : Nat) (s : List Char), s.length ≤ f1 → s.length ≤ f2 →
      replaceAllLitFuel p r f1 s = replaceAllLitFuel p r f2 s := by
  intro f1
  induction f1 with
  | zero =>
    intro f2 s h1 h2
    have hs : s = [] := List.eq_nil_of_length_eq_zero (Nat.le_zero.mp h1)
    rw [hs, replaceAllLitFuel_nil, replaceAllLitFuel_nil]
  | succ f ih =>
    intro f2 s h1 h2
    cases s with
    | nil => rw [replaceAllLitFuel_nil, replaceAllLitFuel_nil]
    | cons c rest =>
      cases f2 with
      | zero => simp at h2
      | succ f2b =>
        simp only [replaceAllLitFuel]
        by_cases hm : p ≠ [] ∧ p.isPrefixOf (c :: rest)
        · rw [if_pos hm, if_pos hm]
          have hplen : 1 ≤ p.length := by
            cases hq : p with
            | nil => exact absurd hq hm.1
            | cons q qs => simp
          have hd : ((c :: rest).drop p.length).length ≤ f ∧
              ((c :: rest).drop p.length).length ≤ f2b := by
            rw [List.length_drop]
            simp only [List.length_cons]
            simp only [List.length_cons] at h1 h2
            omega
          rw [ih f2b ((c :: rest).drop p.length) hd.1 hd.2]
        · rw [if_neg hm, if_neg hm]
          simp only [List.length_cons] at h1 h2
          rw [ih f2b rest (by omega) (by omega)]

lemma replaceAllLit_cons_no_match (p r : List Char) (c : Char) (s : List Char)
    (h : ¬(p ≠ [] ∧ p.isPrefixOf (c :: s))) :
    replaceAllLit p r (c :: s) = c :: replaceAllLit p r s := by
  unfold replaceAllLit
  simp only [List.length_cons, replaceAllLitFuel]
  rw [if_neg h]

lemma replaceAllLit_front_match (p r s : List Char) (h : p ≠ []) :
    replaceAllLit p r (p ++ s) = r ++ replaceAllLit p r s := by
  cases hq : p with
  | nil => exact absurd hq h
  | cons q qs =>
    subst hq
    show replaceAllLit (q :: qs) r (q :: (qs ++ s)) = _
    unfold replaceAllLit
    simp only [List.length_cons, replaceAllLitFuel]
    rw [if_pos]
    · have hdrop : List.drop (qs.length + 1) (q :: (qs ++ s)) = s := by
        rw [List.drop_succ_cons, List.drop_left]
      rw [hdrop]
      rw [replaceAllLitFuel_congr (q :: qs) r _ s.length s
        (by simp only [List.length_append]; omega) (Nat.le_refl _)]
    · refine ⟨List.cons_ne_nil q qs, ?_⟩
      rw [List.isPrefixOf_iff_prefix]
      exact List.prefix_append (q :: qs) s

lemma getSubstitution_no_dollar (m b a : List Char) :
    ∀ t, '$' ∉ t → getSubstitution m b a t = t := by
  intro t
  induction t with
  | nil =>
    intro _
    rfl
  | cons c rest ih =>
    intro h
    have hc : c ≠ '$' := fun he => h (he ▸ List.mem_cons_self c rest)
    conv_lhs => unfold getSubstitution
    rw [if_neg hc, ih fun hm => h (List.mem_cons_of_mem c hm)]

lemma replaceAllFuel_eq_lit (p r : List Char) (h : '$' ∉ r) :
    ∀ (fuel : Nat) (seen s : List Char),
      replaceAllFuel p r fuel seen s = replaceAllLitFuel p r fuel s := by
  intro fuel
  induction fuel with
  | zero =>
    intro seen s
    cases s with
    | nil => rfl
    | cons c rest => rfl
  | succ f ih =>
    intro seen s
    cases s with
    | nil => rfl
    | cons c rest =>
      simp only [replaceAllFuel, replaceAllLitFuel]
      by_cases hm : p ≠ [] ∧ p.isPrefixOf (c :: rest)
      · rw [if_pos hm, if_pos hm, ih,
          getSubstitution_no_dollar p seen ((c :: rest).drop p.length) r h]
      · rw [if_neg hm, if_neg hm, ih]

lemma replaceAll_eq_lit (p r s : List Char) (h : '$' ∉ r) :
    replaceAll p r s = replaceAllLit p r s :=
  replaceAllFuel_eq_lit p r h s.length [] s

lemma replaceAllFuel_of_not_containsSub (p r : List Char) :
    ∀ (s : List Char) (fuel : Nat) (seen : List Char), s.length ≤ fuel →
      containsSub p s = false → replaceAllFuel p r fuel seen s = s := by
  intro s
  induction s with
  | nil =>
    intro fuel seen _ _
    cases fuel <;> rfl
  | cons c rest ih =>
    intro fuel seen hf h
    cases fuel with
    | zero => simp at hf
    | succ f =>
      simp only [containsSub, Bool.or_eq_false_iff] at h
      simp only [replaceAllFuel]
      rw [if_neg fun hc => by
        rw [hc.2] at h
        exact Bool.noConfusion h.1]
      simp only [List.length_cons] at hf
      rw [ih f (seen ++ [c]) (by omega) h.2]

lemma replaceAll_of_not_containsSub (p r s : List Char)
    (h : containsSub p s = false) : replaceAll p r s = s :=
  replaceAllFuel_of_not_containsSub p r s s.length [] (Nat.le_refl _) h

lemma replaceAllS_id {s p r : String}
    (h : containsSub p.data s.data = false) : replaceAllS s p r = s := by
  apply String.ext
  show replaceAll p.data r.data s.data = s.data
  exact replaceAll_of_not_containsSub p.data r.data s.data h

lemma replaceAllLit_self (p r : List Char) (h : p ≠ []) :
    replaceAllLit p r p = r := by
  have h2 := replaceAllLit_front_match p r [] h
  rw [List.append_nil] at h2
  rw [h2, replaceAllLit_nil, List.append_nil]

lemma replaceAll_self (p r : List Char) (h : p ≠ []) (hd : '$' ∉ r) :
    replaceAll p r p = r := by
  rw [replaceAll_eq_lit p r p hd]
  exact replaceAllLit_self p r h

lemma startBlockedB_spec {t x : List Char} (h : startBlockedB t x = true) :
    startBlocked t x := by
  simp only [startBlockedB, Bool.and_eq_true, Bool.not_eq_true'] at h
  obtain ⟨h1, h2⟩ := h
  constructor
  · intro hp
    rw [← List.isPrefixOf_iff_prefix] at hp
    rw [h1] at hp
    exact Bool.noConfusion hp
  · intro hc
    have hb : (x.isPrefixOf t && decide (x.length < t.length)) = true := by
      rw [Bool.and_eq_true]
      exact ⟨List.isPrefixOf_iff_prefix.mpr hc.1, decide_eq_true hc.2⟩
    rw [h2] at hb
    exact Bool.noConfusion hb

lemma safeLitB_spec {L : List Char} (h : safeLitB L = true) :
    ∀ t ∈ placeholderTokens, ∀ i, i < L.length → startBlocked t (L.drop i) := by
  intro t ht i hi
  simp only [safeLitB, List.all_eq_true] at h
  exact startBlockedB_spec (h t ht i (List.mem_range.mpr hi))

lemma not_prefix_append_of_startBlocked {t x : List Char}
    (h : startBlocked t x) (R : List Char) : ¬ t <+: (x ++ R) := by
  intro hp
  by_cases hl : t.length ≤ x.length
  · exact h.1 (List.prefix_of_prefix_length_le hp (List.prefix_append x R) hl)
  · exact h.2 ⟨List.prefix_of_prefix_length_le (List.prefix_append x R) hp
      (Nat.le_of_lt (Nat.lt_of_not_le hl)), Nat.lt_of_not_le hl⟩

lemma replaceAllLit_append_blocked (p r : List Char) :
    ∀ (A R : List Char), (∀ i, i < A.length → startBlocked p (A.drop i)) →
      replaceAllLit p r (A ++ R) = A ++ replaceAllLit p r R := by
  intro A
  induction A with
  | nil =>
    intro R _
    rfl
  | cons c A2 ih =>
    intro R h
    have h0 : startBlocked p (c :: A2) := by
      have h1 := h 0 (Nat.succ_pos _)
      rw [List.drop_zero] at h1
      exact h1
    have hnm : ¬(p ≠ [] ∧ p.isPrefixOf (c :: (A2 ++ R))) := by
      intro hc
      rw [List.isPrefixOf_iff_prefix] at hc
      exact not_prefix_append_of_startBlocked h0 R hc.2
    rw [List.cons_append, replaceAllLit_cons_no_match p r c (A2 ++ R) hnm]
    rw [ih R fun i hi => by
      have h2 := h (i + 1) (Nat.succ_lt_succ hi)
      rw [List.drop_succ_cons] at h2
      exact h2]
    rfl

lemma replaceAllLit_safe_id (p : Placeholder) (v L : List Char)
    (h : ∀ i, i < L.length → startBlocked p.token (L.drop i)) :
    replaceAllLit p.token v L = L := by
  have h2 := replaceAllLit_append_blocked p.token v L [] h
  rw [List.append_nil] at h2
  rw [h2, replaceAllLit_nil, List.append_nil]

lemma not_containsSub_of_blocked (t : List Char) :
    ∀ L : List Char, t ≠ [] →
      (∀ i, i < L.length → startBlocked t (L.drop i)) →
      containsSub t L = false := by
  intro L
  induction L with
  | nil =>
    intro ht _
    cases hq : t with
    | nil => exact absurd hq ht
    | cons a as => rfl
  | cons c rest ih =>
    intro ht h
    simp only [containsSub, Bool.or_eq_false_iff]
    constructor
    · have h0 := h 0 (Nat.succ_pos _)
      rw [List.drop_zero] at h0
      cases hb : t.isPrefixOf (c :: rest) with
      | false => rfl
      | true => exact absurd (List.isPrefixOf_iff_prefix.mp hb) h0.1
    · exact ih ht fun i hi => by
        have h2 := h (i + 1) (Nat.succ_lt_succ hi)
        rw [List.drop_succ_cons] at h2
        exact h2

lemma token_ne_nil : ∀ p : Placeholder, p.token ≠ [] := by
  intro p
  cases p <;> decide

lemma token_mem_placeholderTokens :
    ∀ p : Placeholder, p.token ∈ placeholderTokens := by
  intro p
  cases p <;> simp [placeholderTokens]

lemma tokens_mutually_blockedB :
    ∀ p q : Placeholder, p ≠ q →
      ∀ i, i < (Placeholder.token q).length →
        startBlockedB (Placeholder.token p)
          ((Placeholder.token q).drop i) = true := by
  intro p q
  cases p <;> cases q <;> decide

lemma replaceAllLit_render (t : Placeholder) (v : List Char) :
    ∀ pieces : List TemplatePiece, piecesSafeB pieces = true →
      replaceAllLit t.token v (renderTemplate pieces)
        = renderTemplate (replacePh t v pieces) := by
  intro pieces
  induction pieces with
  | nil =>
    intro _
    rfl
  | cons piece rest ih =>
    intro hsafe
    cases piece with
    | lit L =>
      simp only [piecesSafeB, Bool.and_eq_true] at hsafe
      simp only [renderTemplate, replacePh]
      rw [replaceAllLit_append_blocked t.token v L (renderTemplate rest)
        (fun i hi => safeLitB_spec hsafe.1 t.token
          (token_mem_placeholderTokens t) i hi)]
      rw [ih hsafe.2]
    | ph q =>
      simp only [piecesSafeB] at hsafe
      by_cases hq : q = t
      · subst hq
        simp only [renderTemplate, replacePh, if_pos rfl]
        rw [replaceAllLit_front_match q.token v (renderTemplate rest)
          (token_ne_nil q)]
        rw [ih hsafe]
      · simp only [renderTemplate, replacePh, if_neg hq]
        rw [replaceAllLit_append_blocked t.token v q.token (renderTemplate rest)
          (fun i hi => startBlockedB_spec
            (tokens_mutually_blockedB t q (fun he => hq he.symm) i hi))]
        rw [ih hsafe]

lemma replacePh_safeB (t : Placeholder) (v : List Char)
    (hv : safeLitB v = true) :
    ∀ pieces : List TemplatePiece, piecesSafeB pieces = true →
      piecesSafeB (replacePh t v pieces) = true := by
  intro pieces
  induction pieces with
  | nil =>
    intro _
    rfl
  | cons piece rest ih =>
    intro hsafe
    cases piece with
    | lit L =>
      simp only [piecesSafeB, Bool.and_eq_true] at hsafe
      simp only [replacePh, piecesSafeB, Bool.and_eq_true]
      exact ⟨hsafe.1, ih hsafe.2⟩
    | ph q =>
      simp only [piecesSafeB] at hsafe
      by_cases hq : q = t
      · simp only [replacePh, if_pos hq, piecesSafeB, Bool.and_eq_true]
        exact ⟨hv, ih hsafe⟩
      · simp only [replacePh, if_neg hq, piecesSafeB]
        exact ih hsafe

lemma replacePh_all (doc bef aft ctx : List Char) :
    ∀ pieces : List TemplatePiece,
      replacePh Placeholder.cursor ("[CURSOR HERE]" : String).data
        (replacePh Placeholder.contextFiles ctx
          (replacePh Placeholder.afterCursor aft
            (replacePh Placeholder.beforeCursor bef
              (replacePh Placeholder.document doc pieces))))
        = expandPieces doc bef aft ctx pieces := by
  intro pieces
  induction pieces with
  | nil => rfl
  | cons piece rest ih =>
    cases piece with
    | lit L =>
      simp only [replacePh, expandPieces]
      rw [ih]
    | ph q =>
      cases q <;> simp only [replacePh, expandPieces] <;>
        simp [replacePh, ih]

/-- Claim C7 counterexample: the unconditional claim fails on the code.
JavaScript replacement-string semantics expands dollar escapes, so a
document text of $& under template \x7bdocument\x7d reproduces the
matched placeholder instead of inserting the document text; and because
the five substitutions run sequentially, substituted content containing
a later placeholder token is rewritten as well, so the output is not
independent of substitution order. -/
theorem placeholder_substitution_counterexample :
    (PromptBuilder.buildPrompt (fun _ => Except.error ()) ⟨none, []⟩
      "{document}" "$&" "" "" = "{document}"
     ∧ ("{document}" : String) ≠ "$&")
    ∧ (PromptBuilder.buildPrompt (fun _ => Except.error ()) ⟨none, []⟩
      "{before_cursor}" "" "Q{cursor}W" "" = "Q[CURSOR HERE]W"
     ∧ ("Q[CURSOR HERE]W" : String) ≠ "Q{cursor}W") :=
  ⟨⟨by decide, by decide⟩, ⟨by decide, by decide⟩⟩

/-- Claim C7 (amended): global placeholder substitution.  For every
template assembled from pieces — literal segments and occurrences of
the five placeholders — whose literal segments are safe (they neither
contain a placeholder token nor end in a proper prefix of one; unknown
placeholders qualify), and substitution texts that are themselves safe
and free of the dollar character, buildPrompt replaces every occurrence
of every one of the five placeholders with its substitution text (the
cursor with the fixed sentinel) and leaves every literal segment —
unknown placeholders included — untouched; and any template free of
placeholder-token occurrences passes through buildPrompt unchanged. -/
theorem placeholder_substitution
    (fs : String → Except Unit String) (cpaths : List String)
    (pieces : List TemplatePiece) (doc bef aft : String)
    (hsafe : piecesSafeB pieces = true)
    (hdocS : safeLitB doc.data = true) (hdocD : '$' ∉ doc.data)
    (hbefS : safeLitB bef.data = true) (hbefD : '$' ∉ bef.data)
    (haftS : safeLitB aft.data = true) (haftD : '$' ∉ aft.data)
    (hctxS : safeLitB (PromptBuilder.loadContextFiles fs cpaths).data = true)
    (hctxD : '$' ∉ (PromptBuilder.loadContextFiles fs cpaths).data) :
    PromptBuilder.buildPrompt fs ⟨none, cpaths⟩
      (String.mk (renderTemplate pieces)) doc bef aft
      = String.mk (renderTemplate (expandPieces doc.data bef.data aft.data
          (PromptBuilder.loadContextFiles fs cpaths).data pieces))
    ∧ (∀ tmpl : String, safeLitB tmpl.data = true →
        PromptBuilder.buildPrompt fs ⟨none, cpaths⟩ tmpl doc bef aft
          = tmpl) := by
  have hm : ∀ (q : Placeholder) (v : List Char) (ps : List TemplatePiece),
      '$' ∉ v → piecesSafeB ps = true →
      replaceAll q.token v (renderTemplate ps)
        = renderTemplate (replacePh q v ps) := by
    intro q v ps hv hps
    rw [replaceAll_eq_lit q.token v (renderTemplate ps) hv]
    exact replaceAllLit_render q v ps hps
  constructor
  · have s1 := replacePh_safeB Placeholder.document doc.data hdocS pieces hsafe
    have s2 := replacePh_safeB Placeholder.beforeCursor bef.data hbefS _ s1
    have s3 := replacePh_safeB Placeholder.afterCursor aft.data haftS _ s2
    apply String.ext
    show replaceAll ("{cursor}" : String).data ("[CURSOR HERE]" : String).data
      (replaceAll ("{context_files}" : String).data
        (PromptBuilder.loadContextFiles fs cpaths).data
        (replaceAll ("{after_cursor}" : String).data aft.data
          (replaceAll ("{before_cursor}" : String).data bef.data
            (replaceAll ("{document}" : String).data doc.data
              (renderTemplate pieces)))))
      = renderTemplate (expandPieces doc.data bef.data aft.data
          (PromptBuilder.loadContextFiles fs cpaths).data pieces)
    have e1 : replaceAll ("{document}" : String).data doc.data
        (renderTemplate pieces)
        = renderTemplate (replacePh Placeholder.document doc.data pieces) :=
      hm Placeholder.document doc.data pieces hdocD hsafe
    have e2 : replaceAll ("{before_cursor}" : String).data bef.data
        (renderTemplate (replacePh Placeholder.document doc.data pieces))
        = renderTemplate (replacePh Placeholder.beforeCursor bef.data
            (replacePh Placeholder.document doc.data pieces)) :=
      hm Placeholder.beforeCursor bef.data _ hbefD s1
    have e3 : replaceAll ("{after_cursor}" : String).data aft.data
        (renderTemplate (replacePh Placeholder.beforeCursor bef.data
          (replacePh Placeholder.document doc.data pieces)))
        = renderTemplate (replacePh Placeholder.afterCursor aft.data
            (replacePh Placeholder.beforeCursor bef.data
              (replacePh Placeholder.document doc.data pieces))) :=
      hm Placeholder.afterCursor aft.data _ haftD s2
    have e4 : replaceAll ("{context_files}" : String).data
        (PromptBuilder.loadContextFiles fs cpaths).data
        (renderTemplate (replacePh Placeholder.afterCursor aft.data
          (replacePh Placeholder.beforeCursor bef.data
            (replacePh Placeholder.document doc.data pieces))))
        = renderTemplate (replacePh Placeholder.contextFiles
            (PromptBuilder.loadContextFiles fs cpaths).data
            (replacePh Placeholder.afterCursor aft.data
              (replacePh Placeholder.beforeCursor bef.data
                (replacePh Placeholder.document doc.data pieces)))) :=
      hm Placeholder.contextFiles _ _ hctxD s3
    have s4 := replacePh_safeB Placeholder.contextFiles
      (PromptBuilder.loadContextFiles fs cpaths).data hctxS _ s3
    have e5 : replaceAll ("{cursor}" : String).data
        ("[CURSOR HERE]" : String).data
        (renderTemplate (replacePh Placeholder.contextFiles
          (PromptBuilder.loadContextFiles fs cpaths).data
          (replacePh Placeholder.afterCursor aft.data
            (replacePh Placeholder.beforeCursor bef.data
              (replacePh Placeholder.document doc.data pieces)))))
        = renderTemplate (replacePh Placeholder.cursor
            ("[CURSOR HERE]" : String).data
            (replacePh Placeholder.contextFiles
              (PromptBuilder.loadContextFiles fs cpaths).data
              (replacePh Placeholder.afterCursor aft.data
                (replacePh Placeholder.beforeCursor bef.data
                  (replacePh Placeholder.document doc.data pieces))))) :=
      hm Placeholder.cursor ("[CURSOR HERE]" : String).data _
        (by decide) s4
    rw [e1, e2, e3, e4, e5,
      replacePh_all doc.data bef.data aft.data
        (PromptBuilder.loadContextFiles fs cpaths).data pieces]
  · intro tmpl htmpl
    have hid : ∀ q : Placeholder, containsSub q.token tmpl.data = false :=
      fun q => not_containsSub_of_blocked q.token tmpl.data (token_ne_nil q)
        (fun i hi => safeLitB_spec htmpl q.token
          (token_mem_placeholderTokens q) i hi)
    show replaceAllS (replaceAllS (replaceAllS (replaceAllS (replaceAllS
      tmpl "{document}" doc) "{before_cursor}" bef) "{after_cursor}" aft)
      "{context_files}" (PromptBuilder.loadContextFiles fs cpaths))
      "{cursor}" PromptBuilder.cursorMarker = tmpl
    rw [replaceAllS_id (hid Placeholder.document),
      replaceAllS_id (hid Placeholder.beforeCursor),
      replaceAllS_id (hid Placeholder.afterCursor),
      replaceAllS_id (hid Placeholder.contextFiles),
      replaceAllS_id (hid Placeholder.cursor)]

/-- Witness for the amended claim C7: the template A\x7bcursor\x7dB\x7bcursor\x7d
(as pieces) expands both cursor occurrences to the sentinel. -/
theorem placeholder_substitution_witness :
    PromptBuilder.buildPrompt (fun _ => Except.error ()) ⟨none, []⟩
      (String.mk (renderTemplate
        [TemplatePiece.lit ("A" : String).data,
         TemplatePiece.ph Placeholder.cursor,
         TemplatePiece.lit ("B" : String).data,
         TemplatePiece.ph Placeholder.cursor])) "d" "b" "a"
      = String.mk (renderTemplate (expandPieces ("d" : String).data
          ("b" : String).data ("a" : String).data
          (PromptBuilder.loadContextFiles (fun _ => Except.error ()) []).data
          [TemplatePiece.lit ("A" : String).data,
           TemplatePiece.ph Placeholder.cursor,
           TemplatePiece.lit ("B" : String).data,
           TemplatePiece.ph Placeholder.cursor]))
    ∧ String.mk (renderTemplate (expandPieces ("d" : String).data
          ("b" : String).data ("a" : String).data
          (PromptBuilder.loadContextFiles (fun _ => Except.error ()) []).data
          [TemplatePiece.lit ("A" : String).data,
           TemplatePiece.ph Placeholder.cursor,
           TemplatePiece.lit ("B" : String).data,
           TemplatePiece.ph Placeholder.cursor]))
        = "A[CURSOR HERE]B[CURSOR HERE]" :=
  ⟨(placeholder_substitution (fun _ => Except.error ()) []
      [TemplatePiece.lit ("A" : String).data,
       TemplatePiece.ph Placeholder.cursor,
       TemplatePiece.lit ("B" : String).data,
       TemplatePiece.ph Placeholder.cursor] "d" "b" "a"
      (by decide) (by decide) (by decide) (by decide) (by decide)
      (by decide) (by decide) (by decide) (by decide)).1,
   by decide⟩

/-- Claim C8: context-file tolerance.  The context-loading loop of
buildPrompt attempts each configured path in order; a path whose read
throws is skipped without failing the surrounding build, so with one
readable and one missing path (in either order) the loaded context is
exactly the readable file's delimited entry, and a build whose template
asks for {context_files} returns exactly that entry whenever the entry
reinjects no cursor token and contains no dollar character (dollar
sequences would be expanded by the replacement semantics). -/
theorem context_file_tolerance
    (fs : String → Except Unit String) (p1 p2 txt : String)
    (h1 : fs p1 = Except.ok txt) (h2 : fs p2 = Except.error ()) :
    PromptBuilder.loadContextFiles fs [p1, p2]
      = PromptBuilder.contextEntry p1 txt
    ∧ PromptBuilder.loadContextFiles fs [p2, p1]
      = PromptBuilder.contextEntry p1 txt
    ∧ (∀ rest, PromptBuilder.loadContextFiles fs (p2 :: rest)
        = PromptBuilder.loadContextFiles fs rest)
    ∧ (∀ rest, PromptBuilder.loadContextFiles fs (p1 :: rest)
        = PromptBuilder.contextEntry p1 txt
          ++ PromptBuilder.loadContextFiles fs rest)
    ∧ (containsSub ("{cursor}" : String).data
          (PromptBuilder.contextEntry p1 txt).data = false →
        '$' ∉ (PromptBuilder.contextEntry p1 txt).data →
        PromptBuilder.buildPrompt fs ⟨none, [p1, p2]⟩ "{context_files}"
          "" "" "" = PromptBuilder.contextEntry p1 txt) := by
  have hskip : ∀ rest, PromptBuilder.loadContextFiles fs (p2 :: rest)
      = PromptBuilder.loadContextFiles fs rest := by
    intro rest
    simp only [PromptBuilder.loadContextFiles, h2]
    exact String.empty_append _
  have htake : ∀ rest, PromptBuilder.loadContextFiles fs (p1 :: rest)
      = PromptBuilder.contextEntry p1 txt
        ++ PromptBuilder.loadContextFiles fs rest := by
    intro rest
    simp only [PromptBuilder.loadContextFiles, h1]
  have hload : PromptBuilder.loadContextFiles fs [p1, p2]
      = PromptBuilder.contextEntry p1 txt := by
    rw [htake [p2], hskip []]
    exact String.append_empty _
  refine ⟨hload, ?_, hskip, htake, ?_⟩
  · rw [hskip [p1], htake []]
    exact String.append_empty _
  · intro hcur hdol
    show replaceAllS (replaceAllS (replaceAllS (replaceAllS (replaceAllS
      ("{context_files}" : String) "{document}" "") "{before_cursor}" "")
      "{after_cursor}" "")
      "{context_files}" (PromptBuilder.loadContextFiles fs [p1, p2]))
      "{cursor}" PromptBuilder.cursorMarker
      = PromptBuilder.contextEntry p1 txt
    have e1 : replaceAllS ("{context_files}" : String) "{document}" ""
        = "{context_files}" := replaceAllS_id (by decide)
    have e2 : replaceAllS ("{context_files}" : String) "{before_cursor}" ""
        = "{context_files}" := replaceAllS_id (by decide)
    have e3 : replaceAllS ("{context_files}" : String) "{after_cursor}" ""
        = "{context_files}" := replaceAllS_id (by decide)
    rw [e1, e2, e3, hload]
    have hfull : replaceAllS "{context_files}" "{context_files}"
        (PromptBuilder.contextEntry p1 txt)
        = PromptBuilder.contextEntry p1 txt := by
      apply String.ext
      show replaceAll ("{context_files}" : String).data
        (PromptBuilder.contextEntry p1 txt).data
        ("{context_files}" : String).data
        = (PromptBuilder.contextEntry p1 txt).data
      exact replaceAll_self ("{context_files}" : String).data
        (PromptBuilder.contextEntry p1 txt).data (by decide) hdol
    rw [hfull, replaceAllS_id hcur]

/-- Witness for claim C8 with a concrete file system: one readable and
one missing context file. -/
theorem context_file_tolerance_witness :
    PromptBuilder.loadContextFiles
      (fun q => if q = "good.md" then Except.ok "HELLO" else Except.error ())
      ["good.md", "missing.md"]
      = PromptBuilder.contextEntry "good.md" "HELLO" :=
  (context_file_tolerance
    (fun q => if q = "good.md" then Except.ok "HELLO" else Except.error ())
    "good.md" "missing.md" "HELLO" (by rfl) (by rfl)).1

/-- Claim C10: substitution order leakage.  Because the five
substitutions run sequentially in the fixed source order, content
substituted for an earlier placeholder is rescanned by the later
substitutions: a document whose text contains the literal {cursor}
has that token replaced by the sentinel inside the inserted content,
and the spec-modelled order-independent variant (cursor substitution
first) produces a different output on the same input. -/
theorem substitution_order_leakage :
    PromptBuilder.buildPrompt (fun _ => Except.error ()) ⟨none, []⟩
      "{document}" "X{cursor}Y" "b" "a" = "X[CURSOR HERE]Y"
    ∧ PromptBuilder.buildPromptCursorFirst (fun _ => Except.error ())
      ⟨none, []⟩ "{document}" "X{cursor}Y" "b" "a" = "X{cursor}Y"
    ∧ ("X[CURSOR HERE]Y" : String) ≠ "X{cursor}Y" :=
  ⟨by decide, by decide, by decide⟩

lemma lookup_setEntry (m : SettingsMap) (k j : String) (v : DocumentSettings) :
    DocumentSettingsManager.lookupSettings
        (DocumentSettingsManager.setEntry m k v) j
      = if k = j then some v
        else DocumentSettingsManager.lookupSettings m j := by
  induction m with
  | nil =>
    simp only [DocumentSettingsManager.setEntry,
      DocumentSettingsManager.lookupSettings]
  | cons e rest ih =>
    obtain ⟨a, b⟩ := e
    by_cases hak : a = k
    · subst hak
      by_cases haj : a = j
      · simp [DocumentSettingsManager.setEntry,
          DocumentSettingsManager.lookupSettings, haj]
      · simp [DocumentSettingsManager.setEntry,
          DocumentSettingsManager.lookupSettings, haj]
    · by_cases haj : a = j
      · have hkj : k ≠ j := fun h => hak (haj.trans h.symm)
        have hjk : j ≠ k := fun h => hkj h.symm
        simp [DocumentSettingsManager.setEntry,
          DocumentSettingsManager.lookupSettings, hak, haj, hkj, hjk]
      · simp [DocumentSettingsManager.setEntry,
          DocumentSettingsManager.lookupSettings, hak, haj, ih]

lemma getSettings_of_lookup_some {m : SettingsMap} {uri : String}
    {s : DocumentSettings}
    (h : DocumentSettingsManager.lookupSettings m uri = some s) :
    DocumentSettingsManager.getSettings m uri = (s, m) := by
  unfold DocumentSettingsManager.getSettings
  rw [h]

lemma getSettings_of_lookup_none {m : SettingsMap} {uri : String}
    (h : DocumentSettingsManager.lookupSettings m uri = none) :
    DocumentSettingsManager.getSettings m uri
      = (⟨none, []⟩, DocumentSettingsManager.setEntry m uri ⟨none, []⟩) := by
  unfold DocumentSettingsManager.getSettings
  rw [h]

/-- Claim C9: settings idempotence.  addContextFile is idempotent
(calling it twice with the same path equals calling it once); starting
from settings that do not yet hold the path, adding it leaves exactly
one entry for it (also when the document had no settings at all);
removeContextFile on a path absent from an existing settings record
leaves the whole map unchanged; and getSettings lazily materialises the
default record, so none of these operations can fail. -/
theorem settings_idempotence (m : SettingsMap) (uri fp : String) :
    DocumentSettingsManager.addContextFile
        (DocumentSettingsManager.addContextFile m uri fp) uri fp
      = DocumentSettingsManager.addContextFile m uri fp
    ∧ (∀ s, DocumentSettingsManager.lookupSettings m uri = some s →
        fp ∉ s.contextFiles →
        (DocumentSettingsManager.getContextFiles
          (DocumentSettingsManager.addContextFile m uri fp) uri).1.count fp
          = 1)
    ∧ (DocumentSettingsManager.lookupSettings m uri = none →
        (DocumentSettingsManager.getContextFiles
          (DocumentSettingsManager.addContextFile m uri fp) uri).1 = [fp])
    ∧ (∀ s, DocumentSettingsManager.lookupSettings m uri = some s →
        fp ∉ s.contextFiles →
        DocumentSettingsManager.removeContextFile m uri fp = m)
    ∧ (DocumentSettingsManager.lookupSettings m uri = none →
        DocumentSettingsManager.getSettings m uri
          = (⟨none, []⟩,
             DocumentSettingsManager.setEntry m uri ⟨none, []⟩)) := by
  refine ⟨?_, ?_, ?_, ?_, fun h => getSettings_of_lookup_none h⟩
  · cases hl : DocumentSettingsManager.lookupSettings m uri with
    | some s =>
      by_cases hmem : fp ∈ s.contextFiles
      · have hfirst : DocumentSettingsManager.addContextFile m uri fp = m := by
          unfold DocumentSettingsManager.addContextFile
          rw [getSettings_of_lookup_some hl]
          exact if_pos hmem
        rw [hfirst, hfirst]
      · have hfirst : DocumentSettingsManager.addContextFile m uri fp
            = DocumentSettingsManager.setEntry m uri
              { s with contextFiles := s.contextFiles ++ [fp] } := by
          unfold DocumentSettingsManager.addContextFile
          rw [getSettings_of_lookup_some hl]
          exact if_neg hmem
        rw [hfirst]
        unfold DocumentSettingsManager.addContextFile
        rw [getSettings_of_lookup_some (s := { s with
          contextFiles := s.contextFiles ++ [fp] })
          (by rw [lookup_setEntry]; exact if_pos rfl)]
        exact if_pos (List.mem_append.mpr (Or.inr (List.mem_singleton_self fp)))
    | none =>
      have hfirst : DocumentSettingsManager.addContextFile m uri fp
          = DocumentSettingsManager.setEntry
              (DocumentSettingsManager.setEntry m uri ⟨none, []⟩) uri
              ⟨none, [fp]⟩ := by
        unfold DocumentSettingsManager.addContextFile
        rw [getSettings_of_lookup_none hl]
        exact if_neg (List.not_mem_nil fp)
      rw [hfirst]
      unfold DocumentSettingsManager.addContextFile
      rw [getSettings_of_lookup_some (s := ⟨none, [fp]⟩)
        (by rw [lookup_setEntry]; exact if_pos rfl)]
      exact if_pos (List.mem_singleton_self fp)
  · intro s hl hmem
    have hfirst : DocumentSettingsManager.addContextFile m uri fp
        = DocumentSettingsManager.setEntry m uri
          { s with contextFiles := s.contextFiles ++ [fp] } := by
      unfold DocumentSettingsManager.addContextFile
      rw [getSettings_of_lookup_some hl]
      exact if_neg hmem
    rw [hfirst]
    unfold DocumentSettingsManager.getContextFiles
    rw [getSettings_of_lookup_some (s := { s with
      contextFiles := s.contextFiles ++ [fp] })
      (by rw [lookup_setEntry]; exact if_pos rfl)]
    show (s.contextFiles ++ [fp]).count fp = 1
    rw [List.count_append, List.count_eq_zero.mpr hmem]
    simp
  · intro hl
    have hfirst : DocumentSettingsManager.addContextFile m uri fp
        = DocumentSettingsManager.setEntry
            (DocumentSettingsManager.setEntry m uri ⟨none, []⟩) uri
            ⟨none, [fp]⟩ := by
      unfold DocumentSettingsManager.addContextFile
      rw [getSettings_of_lookup_none hl]
      exact if_neg (List.not_mem_nil fp)
    rw [hfirst]
    unfold DocumentSettingsManager.getContextFiles
    rw [getSettings_of_lookup_some (s := ⟨none, [fp]⟩)
      (by rw [lookup_setEntry]; exact if_pos rfl)]
  · intro s hl hmem
    unfold DocumentSettingsManager.removeContextFile
    rw [getSettings_of_lookup_some hl]
    exact if_neg hmem

/-- Witness for claim C9 at a concrete map: adding a fresh path to
existing settings leaves exactly one entry for it, and removing an
absent path changes nothing. -/
theorem settings_idempotence_witness :
    (DocumentSettingsManager.getContextFiles
      (DocumentSettingsManager.addContextFile
        [("doc", ⟨none, ["b"]⟩)] "doc" "a") "doc").1.count "a" = 1
    ∧ DocumentSettingsManager.removeContextFile
        [("doc", ⟨none, ["b"]⟩)] "doc" "a" = [("doc", ⟨none, ["b"]⟩)] :=
  ⟨(settings_idempotence [("doc", ⟨none, ["b"]⟩)] "doc" "a").2.1
    ⟨none, ["b"]⟩ (by rfl) (by decide),
   (settings_idempotence [("doc", ⟨none, ["b"]⟩)] "doc" "a").2.2.2.1
    ⟨none, ["b"]⟩ (by rfl) (by decide)⟩
